import Mathlib

/-!
Shallow embedding of the build orchestrator `build.go` (package main).

The script is single-threaded; all of its effects are on process-wide
state: the working directory, the filesystem (only modification times
matter to the staleness logic, plus file existence for reads), the
per-run memoization map `processed`, and the sequence of external
process invocations.  We model that state explicitly as a record `St`
and every operation as a function `St → Except St (α × St)`: a normal
return carries the result and the new state, while `.error s` models a
Go `panic` aborting the run with the state the process had at that
moment (deferred directory restores that run during unwinding are
modelled where the source registers them).

External process outcomes are an oracle `World`: for each attempted
invocation it yields `some output` (success, with captured stdout) or
`none` (spawn failure, non-zero exit, or an I/O failure while feeding
input or writing output), exactly the conditions on which `command`
panics.  Paths follow POSIX resolution against the current working
directory, as the Go `os` package does on the platforms this script
targets; `filepath.FromSlash` is the identity there.
-/

/-- Characters of a string, with trailing `/` separators removed
(so that `os.Chdir("cmd/peg-bootstrap/")` followed by relative stats
agrees with stats of `cmd/peg-bootstrap/x` from the root). -/
def dropTrailSlash (l : List Char) : List Char :=
  (l.reverse.dropWhile (fun c => c == '/')).reverse

def normPath (p : String) : String := ⟨dropTrailSlash p.data⟩

/-- POSIX: a path is absolute when it starts with `/`. -/
def isAbs (p : String) : Bool :=
  match p.data with
  | c :: _ => c == '/'
  | [] => false

/-- Resolution of a (possibly relative) path against a working directory. -/
def resolve (cwd p : String) : String :=
  if isAbs p then normPath p else normPath (cwd ++ "/" ++ p)

/-- One attempted external process invocation, as recorded by `command`:
executable name, arguments, the working directory it was started in, and
the resolved input/output redirection files (if any). -/
structure Invocation where
  name : String
  args : List String
  cwd : String
  inputFile : Option String
  outputFile : Option String
deriving DecidableEq

/-- Outcome oracle for external processes: `none` means the invocation
fails (spawn failure, non-zero exit status, or I/O error), `some out`
means it succeeds producing output `out`. -/
structure World where
  run : Invocation → Option String

/-- Process-wide state of the build script. -/
structure St where
  /-- current working directory (absolute) -/
  cwd : String
  /-- files on disk: resolved path ↦ modification time -/
  fs : List (String × Nat)
  /-- directories that exist on disk (absolute paths) -/
  dirs : List String
  /-- the global `processed` map: target name ↦ cached result -/
  processed : List (String × Bool)
  /-- invocations attempted so far, in order -/
  trace : List Invocation
  /-- logical clock used to assign fresh modification times -/
  clock : Nat
deriving DecidableEq

def lookupN (k : String) : List (String × Nat) → Option Nat
  | [] => none
  | e :: rest => if e.1 = k then some e.2 else lookupN k rest

def lookupB (k : String) : List (String × Bool) → Option Bool
  | [] => none
  | e :: rest => if e.1 = k then some e.2 else lookupB k rest

def memStr (k : String) : List String → Bool
  | [] => false
  | x :: rest => if x = k then true else memStr k rest

def fsRemove : List (String × Nat) → String → List (String × Nat)
  | [], _ => []
  | e :: rest, p => if e.1 = p then fsRemove rest p else e :: fsRemove rest p

def fsWrite (fs : List (String × Nat)) (p : String) (t : Nat) : List (String × Nat) :=
  (p, t) :: fsRemove fs p

/-- `os.Stat`: `none` models a stat error (no such file).  `os.Stat("")`
always fails. -/
def osStat (s : St) (p : String) : Option Nat :=
  if p = "" then none else lookupN (resolve s.cwd p) s.fs

/-- `chdir` from the source: reads the current directory, changes into
`dir` (a panic, modelled as `.error`, if that fails) and returns the
directory that was current before the change. -/
def chdir (dir : String) (s : St) : Except St (String × St) :=
  let d := resolve s.cwd dir
  if memStr d s.dirs then .ok (s.cwd, { s with cwd := d }) else .error s

def mkInv (s : St) (n i o : String) (args : List String) : Invocation :=
  { name := n, args := args, cwd := s.cwd,
    inputFile := if i = "" then none else some (resolve s.cwd i),
    outputFile := if o = "" then none else some (resolve s.cwd o) }

/-- `command` from the source: optionally reads the input file (panic if
that read fails, before the child is started), starts the child and
waits for it (panic on spawn failure, non-zero exit or I/O error — the
oracle's `none`), and, when an output file is named, writes the captured
output there with a fresh modification time. -/
def command (W : World) (n i o : String) (args : List String) (s : St) :
    Except St (Unit × St) :=
  let inv := mkInv s n i o args
  let s₁ : St := { s with trace := s.trace ++ [inv] }
  let runIt : Except St (Unit × St) :=
    match W.run inv with
    | none => .error s₁
    | some _ =>
      if o = "" then .ok ((), s₁)
      else .ok ((), { s₁ with fs := fsWrite s₁.fs (resolve s.cwd o) s.clock,
                              clock := s.clock + 1 })
  if i = "" then runIt
  else
    match osStat s i with
    | none => .error s
    | some _ => runIt

/-- `delete` from the source: `os.Remove`, errors ignored. -/
def deleteFile (f : String) (s : St) : St :=
  { s with fs := fsRemove s.fs (resolve s.cwd f) }

/-- Is `p` a direct entry of directory `cwd` whose name ends in `suf`? -/
def hasSuffixInCwd (cwd suf p : String) : Bool :=
  let pre := (cwd ++ "/").data
  if pre.isPrefixOf p.data then
    let rest := p.data.drop pre.length
    if rest.contains '/' then false else suf.data.isSuffixOf rest
  else false

def fsDropSuffix (cwd suf : String) : List (String × Nat) → List (String × Nat)
  | [] => []
  | e :: rest =>
    if hasSuffixInCwd cwd suf e.1 then fsDropSuffix cwd suf rest
    else e :: fsDropSuffix cwd suf rest

/-- `deleteFilesWithSuffix` from the source: list the current directory
and remove every entry whose name ends in `suf`. -/
def deleteSuffix (suf : String) (s : St) : St :=
  { s with fs := fsDropSuffix s.cwd suf s.fs }

/-- One simple action step of a target's body. -/
inductive Step where
  | cmd (name inputFile outputFile : String) (args : List String)
  | del (file : String)
  | delSuffix (suffix : String)

/-- A target's action is a sequence of `Act`s: either a simple step, or
a block of steps run inside another directory, entered with `chdir` and
left via the deferred `chdir(wd)` (which Go runs on every exit path,
panics included). -/
inductive Act where
  | step (st : Step)
  | indir (dir : String) (body : List Step)

def runStep (W : World) : Step → St → Except St (Unit × St)
  | .cmd n i o args, s => command W n i o args s
  | .del f, s => .ok ((), deleteFile f s)
  | .delSuffix suf, s => .ok ((), deleteSuffix suf s)

def runSteps (W : World) : List Step → St → Except St (Unit × St)
  | [], s => .ok ((), s)
  | st :: rest, s =>
    match runStep W st s with
    | .error e => .error e
    | .ok (_, s₁) => runSteps W rest s₁

def runAct (W : World) : Act → St → Except St (Unit × St)
  | .step st, s => runStep W st s
  | .indir d body, s =>
    match chdir d s with
    | .error e => .error e
    | .ok (w, s₁) =>
      match runSteps W body s₁ with
      | .ok (_, s₂) =>
        (match chdir w s₂ with
         | .error e => .error e
         | .ok (_, s₃) => .ok ((), s₃))
      | .error s₂ =>
        (match chdir w s₂ with
         | .error e => .error e
         | .ok (_, s₃) => .error s₃)

def runActs (W : World) : List Act → St → Except St (Unit × St)
  | [], s => .ok ((), s)
  | a :: rest, s =>
    match runAct W a s with
    | .error e => .error e
    | .ok (_, s₁) => runActs W rest s₁

/-- A dependency passed to `done`, mirroring the `interface{}` values of
the source's type switch: a file path (`string` case), a target
reference with the name `runtime.FuncForPC` derives for it (`func()
bool` case), or any value of another type (no case of the switch
matches; the payload stands for such an arbitrary value). -/
inductive Dep where
  | str (path : String)
  | func (nm : String) (f : St → Except St (Bool × St))
  | other (v : Nat)

/-- The dependency loop of `done`, with `info` the result of statting
the target's output (fixed before the loop) and `fini` the running
result.  Transcribed case by case from the source's `switch`. -/
def doneLoop (info : Option Nat) : List Dep → Bool → St → Except St (Bool × St)
  | [], fini, s => .ok (fini, s)
  | Dep.str d :: rest, fini, s =>
    match info with
    | none => doneLoop info rest false s
    | some om =>
      match osStat s d with
      | none => .error s
      | some dm => doneLoop info rest (if om < dm then false else fini) s
  | Dep.func nm f :: rest, fini, s =>
    match lookupB nm s.processed with
    | some r => doneLoop info rest (fini && r) s
    | none =>
      match f s with
      | .error e => .error e
      | .ok (b₁, s₁) =>
        doneLoop info rest (fini && b₁) { s₁ with processed := (nm, b₁) :: s₁.processed }
  | Dep.other _ :: rest, fini, s => doneLoop info rest fini s

/-- `done` from the source: stat the output file (a failed stat makes
the initial result `false`), then fold the dependency checks. -/
def done (file : String) (deps : List Dep) (s : St) : Except St (Bool × St) :=
  doneLoop (osStat s file) deps (osStat s file).isSome s

/-- The shared shape of every target function: `if done(out, deps...) {
return true }`, then the action steps, then `return false`. -/
def runTarget (W : World) (out : String) (deps : List Dep) (acts : List Act)
    (s : St) : Except St (Bool × St) :=
  match done out deps s with
  | .error e => .error e
  | .ok (true, s₁) => .ok (true, s₁)
  | .ok (false, s₁) =>
    match runActs W acts s₁ with
    | .error e => .error e
    | .ok (_, s₂) => .ok (false, s₂)

def bootstrap (W : World) : St → Except St (Bool × St) :=
  runTarget W "bootstrap/bootstrap"
    [.str "bootstrap/main.go", .str "tree/peg.go"]
    [.indir "bootstrap" [.cmd "go" "" "" ["build"]]]

def peg0 (W : World) : St → Except St (Bool × St) :=
  runTarget W "cmd/peg-bootstrap/peg0"
    [.str "cmd/peg-bootstrap/main.go", .func "main.bootstrap" (bootstrap W)]
    [.indir "cmd/peg-bootstrap/"
      [.delSuffix ".peg.go",
       .cmd "../../bootstrap/bootstrap" "" "" [],
       .cmd "go" "" "" ["build", "-tags", "bootstrap", "-o", "peg0"]]]

def peg1 (W : World) : St → Except St (Bool × St) :=
  runTarget W "cmd/peg-bootstrap/peg1"
    [.func "main.peg0" (peg0 W), .str "cmd/peg-bootstrap/bootstrap.peg"]
    [.indir "cmd/peg-bootstrap/"
      [.delSuffix ".peg.go",
       .cmd "./peg0" "bootstrap.peg" "peg1.peg.go" [],
       .cmd "go" "" "" ["build", "-tags", "bootstrap", "-o", "peg1"]]]

def peg2 (W : World) : St → Except St (Bool × St) :=
  runTarget W "cmd/peg-bootstrap/peg2"
    [.func "main.peg1" (peg1 W), .str "cmd/peg-bootstrap/peg.bootstrap.peg"]
    [.indir "cmd/peg-bootstrap/"
      [.delSuffix ".peg.go",
       .cmd "./peg1" "peg.bootstrap.peg" "peg2.peg.go" [],
       .cmd "go" "" "" ["build", "-tags", "bootstrap", "-o", "peg2"]]]

def peg3 (W : World) : St → Except St (Bool × St) :=
  runTarget W "cmd/peg-bootstrap/peg3"
    [.func "main.peg2" (peg2 W), .str "peg.peg"]
    [.indir "cmd/peg-bootstrap/"
      [.delSuffix ".peg.go",
       .cmd "./peg2" "../../peg.peg" "peg3.peg.go" [],
       .cmd "go" "" "" ["build", "-tags", "bootstrap", "-o", "peg3"]]]

def peg_bootstrap (W : World) : St → Except St (Bool × St) :=
  runTarget W "cmd/peg-bootstrap/peg-bootstrap"
    [.func "main.peg3" (peg3 W)]
    [.indir "cmd/peg-bootstrap/"
      [.delSuffix ".peg.go",
       .cmd "./peg3" "../../peg.peg" "peg-bootstrap.peg.go" [],
       .cmd "go" "" "" ["build", "-tags", "bootstrap", "-o", "peg-bootstrap"]]]

def peg_peg_go (W : World) : St → Except St (Bool × St) :=
  runTarget W "peg.peg.go"
    [.func "main.peg_bootstrap" (peg_bootstrap W)]
    [.step (.cmd "cmd/peg-bootstrap/peg-bootstrap" "peg.peg" "peg.peg.go" []),
     .step (.cmd "go" "" "" ["build"]),
     .step (.cmd "./peg" "" "" ["-inline", "-switch", "peg.peg"])]

def peg (W : World) : St → Except St (Bool × St) :=
  runTarget W "peg"
    [.func "main.peg_peg_go" (peg_peg_go W), .str "main.go"]
    [.step (.cmd "go" "" "" ["build"])]

def grammars_c (W : World) : St → Except St (Bool × St) :=
  runTarget W "grammars/c/c.peg.go"
    [.func "main.peg" (peg W), .str "grammars/c/c.peg"]
    [.indir "grammars/c/" [.cmd "../../peg" "" "" ["-switch", "-inline", "c.peg"]]]

def grammars_calculator (W : World) : St → Except St (Bool × St) :=
  runTarget W "grammars/calculator/calculator.peg.go"
    [.func "main.peg" (peg W), .str "grammars/calculator/calculator.peg"]
    [.indir "grammars/calculator/"
      [.cmd "../../peg" "" "" ["-switch", "-inline", "calculator.peg"]]]

def grammars_calculator_ast (W : World) : St → Except St (Bool × St) :=
  runTarget W "grammars/calculator_ast/calculator.peg.go"
    [.func "main.peg" (peg W), .str "grammars/calculator_ast/calculator.peg"]
    [.indir "grammars/calculator_ast/"
      [.cmd "../../peg" "" "" ["-switch", "-inline", "calculator.peg"]]]

def grammars_fexl (W : World) : St → Except St (Bool × St) :=
  runTarget W "grammars/fexl/fexl.peg.go"
    [.func "main.peg" (peg W), .str "grammars/fexl/fexl.peg"]
    [.indir "grammars/fexl/" [.cmd "../../peg" "" "" ["-switch", "-inline", "fexl.peg"]]]

def grammars_java (W : World) : St → Except St (Bool × St) :=
  runTarget W "grammars/java/java_1_7.peg.go"
    [.func "main.peg" (peg W), .str "grammars/java/java_1_7.peg"]
    [.indir "grammars/java/"
      [.cmd "../../peg" "" "" ["-switch", "-inline", "java_1_7.peg"]]]

def grammars_long_test (W : World) : St → Except St (Bool × St) :=
  runTarget W "grammars/long_test/long.peg.go"
    [.func "main.peg" (peg W), .str "grammars/long_test/long.peg"]
    [.indir "grammars/long_test/"
      [.cmd "../../peg" "" "" ["-switch", "-inline", "long.peg"]]]

def test (W : World) : St → Except St (Bool × St) :=
  runTarget W ""
    [.func "main.grammars_c" (grammars_c W),
     .func "main.grammars_calculator" (grammars_calculator W),
     .func "main.grammars_calculator_ast" (grammars_calculator_ast W),
     .func "main.grammars_fexl" (grammars_fexl W),
     .func "main.grammars_java" (grammars_java W),
     .func "main.grammars_long_test" (grammars_long_test W)]
    [.step (.cmd "go" "" "" ["test", "-short", "-tags", "grammars", "./..."])]

def cleanActs : List Act :=
  [.step (.del "bootstrap/bootstrap"),
   .step (.del "grammars/c/c.peg.go"),
   .step (.del "grammars/calculator/calculator.peg.go"),
   .step (.del "grammars/fexl/fexl.peg.go"),
   .step (.del "grammars/java/java_1_7.peg.go"),
   .step (.del "grammars/long_test/long.peg.go"),
   .indir "cmd/peg-bootstrap/"
     [.delSuffix ".peg.go",
      .del "peg0", .del "peg1", .del "peg2", .del "peg3", .del "peg-bootstrap"]]

/-- `clean` from the source: unconditional deletions (no `done` call),
then `return false`. -/
def clean (W : World) (s : St) : Except St (Bool × St) :=
  match runActs W cleanActs s with
  | .error e => .error e
  | .ok (_, s₁) => .ok (false, s₁)

/-- `bench` from the source: force `peg`, then run the benchmark. -/
def bench (W : World) (s : St) : Except St (Bool × St) :=
  match peg W s with
  | .error e => .error e
  | .ok (_, s₁) =>
    match runActs W [.step (.cmd "go" "" "" ["test", "-benchmem", "-bench", "."])] s₁ with
    | .error e => .error e
    | .ok (_, s₂) => .ok (false, s₂)

/-- The state component of an evaluation result (the final state on a
normal return, the state at the panic on an abort). -/
def stateOf (r : Except St (Bool × St)) : St :=
  match r with
  | .ok p => p.2
  | .error e => e

/-- The boolean a target evaluation returned, if it returned. -/
def resultBool (r : Except St (Bool × St)) : Option Bool :=
  match r with
  | .ok p => some p.1
  | .error _ => none

/-- A world in which every invocation succeeds with empty output. -/
def allOk : World := ⟨fun _ => some ""⟩

/-- A world in which every invocation fails. -/
def allFail : World := ⟨fun _ => none⟩

/-- A filesystem in which every artifact and every source file of the
repository exists, all with modification time 0 (so nothing is newer
than anything else and every target is up to date). -/
def freshFs : List (String × Nat) :=
  [("/r/bootstrap/bootstrap", 0), ("/r/bootstrap/main.go", 0), ("/r/tree/peg.go", 0),
   ("/r/cmd/peg-bootstrap/peg0", 0), ("/r/cmd/peg-bootstrap/main.go", 0),
   ("/r/cmd/peg-bootstrap/peg1", 0), ("/r/cmd/peg-bootstrap/bootstrap.peg", 0),
   ("/r/cmd/peg-bootstrap/peg2", 0), ("/r/cmd/peg-bootstrap/peg.bootstrap.peg", 0),
   ("/r/cmd/peg-bootstrap/peg3", 0), ("/r/peg.peg", 0),
   ("/r/cmd/peg-bootstrap/peg-bootstrap", 0),
   ("/r/peg.peg.go", 0), ("/r/peg", 0), ("/r/main.go", 0),
   ("/r/grammars/c/c.peg.go", 0), ("/r/grammars/c/c.peg", 0),
   ("/r/grammars/calculator/calculator.peg.go", 0), ("/r/grammars/calculator/calculator.peg", 0),
   ("/r/grammars/calculator_ast/calculator.peg.go", 0), ("/r/grammars/calculator_ast/calculator.peg", 0),
   ("/r/grammars/fexl/fexl.peg.go", 0), ("/r/grammars/fexl/fexl.peg", 0),
   ("/r/grammars/java/java_1_7.peg.go", 0), ("/r/grammars/java/java_1_7.peg", 0),
   ("/r/grammars/long_test/long.peg.go", 0), ("/r/grammars/long_test/long.peg", 0)]

/-- The repository checked out at `/r` with everything built and up to
date, an empty memoization cache, and no invocations yet. -/
def sUp : St :=
  { cwd := "/r", fs := freshFs, dirs := ["/r"], processed := [], trace := [], clock := 0 }


/-- The up-to-date condition of the spec, phrased over the dependency
list as `done` traverses it: every `FilePath` dependency stats
successfully with a modification time not newer than the output's
(`info`), and every target reference reports up to date — through the
cache when its name is already recorded, otherwise by evaluating it now
(which records its result).  `s'` is the state after the traversal. -/
def DepsUpToDate : Option Nat → List Dep → St → St → Prop
  | _, [], s, s' => s' = s
  | info, Dep.str d :: rest, s, s' =>
      ∃ om dm, info = some om ∧ osStat s d = some dm ∧ ¬ om < dm ∧
        DepsUpToDate info rest s s'
  | info, Dep.func nm f :: rest, s, s' =>
      (∃ r, lookupB nm s.processed = some r ∧ r = true ∧ DepsUpToDate info rest s s') ∨
      (lookupB nm s.processed = none ∧ ∃ s₁, f s = .ok (true, s₁) ∧
        DepsUpToDate info rest { s₁ with processed := (nm, true) :: s₁.processed } s')
  | info, Dep.other _ :: rest, s, s' => DepsUpToDate info rest s s'

theorem doneLoop_true_iff (info : Option Nat) :
    ∀ (deps : List Dep) (fini : Bool) (s s' : St),
      doneLoop info deps fini s = .ok (true, s') ↔
        (fini = true ∧ DepsUpToDate info deps s s') := by
  intro deps
  induction deps with
  | nil =>
    intro fini s s'
    simp [doneLoop, DepsUpToDate, eq_comm]
  | cons d rest ih =>
    intro fini s s'
    cases d with
    | str p =>
      cases info with
      | none => simp [doneLoop, DepsUpToDate, ih]
      | some om =>
        cases hstat : osStat s p with
        | none => simp [doneLoop, hstat, DepsUpToDate]
        | some dm =>
          by_cases hlt : om < dm
          · simp [doneLoop, hstat, hlt, ih, DepsUpToDate, Nat.not_le.mpr hlt]
          · simp [doneLoop, hstat, hlt, ih, DepsUpToDate, and_assoc, Nat.le_of_not_lt hlt]
    | func nm f =>
      cases hl : lookupB nm s.processed with
      | some r =>
        simp [doneLoop, hl, ih, DepsUpToDate, Bool.and_eq_true, and_assoc]
      | none =>
        cases hf : f s with
        | error e => simp [doneLoop, hl, hf, DepsUpToDate]
        | ok p =>
          obtain ⟨b₁, s₁⟩ := p
          cases b₁ with
          | true => simp [doneLoop, hl, hf, ih, DepsUpToDate]
          | false => simp [doneLoop, hl, hf, ih, DepsUpToDate]
    | other v => simp [doneLoop, DepsUpToDate, ih]

theorem doneLoop_acc_false (info : Option Nat) :
    ∀ (deps : List Dep) (s : St) (b : Bool) (s' : St),
      doneLoop info deps false s = .ok (b, s') → b = false := by
  intro deps
  induction deps with
  | nil =>
    intro s b s' h
    simp [doneLoop] at h
    exact h.1
  | cons d rest ih =>
    intro s b s' h
    cases d with
    | str p =>
      cases info with
      | none =>
        simp only [doneLoop] at h
        exact ih _ _ _ h
      | some om =>
        cases hstat : osStat s p with
        | none => simp only [doneLoop, hstat] at h; cases h
        | some dm =>
          simp only [doneLoop, hstat, ite_self] at h
          exact ih _ _ _ h
    | func nm f =>
      cases hl : lookupB nm s.processed with
      | some r =>
        simp only [doneLoop, hl, Bool.false_and] at h
        exact ih _ _ _ h
      | none =>
        cases hf : f s with
        | error e => simp only [doneLoop, hl, hf] at h; cases h
        | ok p =>
          obtain ⟨b₁, s₁⟩ := p
          simp only [doneLoop, hl, hf, Bool.false_and] at h
          exact ih _ _ _ h
    | other v =>
      simp only [doneLoop] at h
      exact ih _ _ _ h

/-- Well-behavedness of a target evaluation with respect to the
invocation trace: it never removes invocations, and when it reports up
to date it performed none. -/
def TraceOK (f : St → Except St (Bool × St)) : Prop :=
  ∀ s r s', f s = .ok (r, s') →
    s.trace.length ≤ s'.trace.length ∧ (r = true → s'.trace = s.trace)

theorem depsUpToDate_trace (info : Option Nat) :
    ∀ (deps : List Dep) (s s' : St),
      (∀ nm f, Dep.func nm f ∈ deps → TraceOK f) →
      DepsUpToDate info deps s s' → s'.trace = s.trace := by
  intro deps
  induction deps with
  | nil =>
    intro s s' _ h
    simp only [DepsUpToDate] at h
    rw [h]
  | cons d rest ih =>
    intro s s' hdeps h
    cases d with
    | str p =>
      simp only [DepsUpToDate] at h
      obtain ⟨om, dm, _, _, _, hrest⟩ := h
      exact ih s s' (fun nm f hm => hdeps nm f (List.mem_cons_of_mem _ hm)) hrest
    | func nm f =>
      simp only [DepsUpToDate] at h
      rcases h with ⟨r, _, _, hrest⟩ | ⟨_, s₁, hf, hrest⟩
      · exact ih s s' (fun nm' f' hm => hdeps nm' f' (List.mem_cons_of_mem _ hm)) hrest
      · have h₁ := (hdeps nm f (List.mem_cons_self _ _)) s true s₁ hf
        have h₂ := ih _ s' (fun nm' f' hm => hdeps nm' f' (List.mem_cons_of_mem _ hm)) hrest
        rw [h₂]
        exact h₁.2 rfl
    | other v =>
      simp only [DepsUpToDate] at h
      exact ih s s' (fun nm' f' hm => hdeps nm' f' (List.mem_cons_of_mem _ hm)) h

theorem doneLoop_trace_mono (info : Option Nat) :
    ∀ (deps : List Dep) (fini : Bool) (s : St) (b : Bool) (s' : St),
      (∀ nm f, Dep.func nm f ∈ deps → TraceOK f) →
      doneLoop info deps fini s = .ok (b, s') →
      s.trace.length ≤ s'.trace.length := by
  intro deps
  induction deps with
  | nil =>
    intro fini s b s' _ h
    simp [doneLoop] at h
    rw [h.2]
  | cons d rest ih =>
    intro fini s b s' hdeps h
    cases d with
    | str p =>
      cases info with
      | none =>
        simp only [doneLoop] at h
        exact ih _ _ _ _ (fun nm f hm => hdeps nm f (List.mem_cons_of_mem _ hm)) h
      | some om =>
        cases hstat : osStat s p with
        | none => simp only [doneLoop, hstat] at h; cases h
        | some dm =>
          simp only [doneLoop, hstat] at h
          exact ih _ _ _ _ (fun nm f hm => hdeps nm f (List.mem_cons_of_mem _ hm)) h
    | func nm f =>
      cases hl : lookupB nm s.processed with
      | some r =>
        simp only [doneLoop, hl] at h
        exact ih _ _ _ _ (fun nm' f' hm => hdeps nm' f' (List.mem_cons_of_mem _ hm)) h
      | none =>
        cases hf : f s with
        | error e => simp only [doneLoop, hl, hf] at h; cases h
        | ok p =>
          obtain ⟨b₁, s₁⟩ := p
          simp only [doneLoop, hl, hf] at h
          have h₁ := ((hdeps nm f (List.mem_cons_self _ _)) s b₁ s₁ hf).1
          have h₂ := ih _ _ _ _ (fun nm' f' hm => hdeps nm' f' (List.mem_cons_of_mem _ hm)) h
          exact le_trans h₁ h₂
    | other v =>
      simp only [doneLoop] at h
      exact ih _ _ _ _ (fun nm' f' hm => hdeps nm' f' (List.mem_cons_of_mem _ hm)) h

/-- State component of a step/action result, on either exit path. -/
def ustate (r : Except St (Unit × St)) : St :=
  match r with
  | .ok p => p.2
  | .error e => e

theorem command_ok_trace (W : World) (n i o : String) (args : List String)
    (s : St) (s' : St) (h : command W n i o args s = .ok ((), s')) :
    s'.trace = s.trace ++ [mkInv s n i o args] := by
  simp only [command] at h
  by_cases hi : i = ""
  · subst hi
    rw [if_pos rfl] at h
    cases hW : W.run (mkInv s n "" o args) with
    | none => rw [hW] at h; cases h
    | some out =>
      rw [hW] at h
      by_cases ho : o = ""
      · subst ho; rw [if_pos rfl] at h; cases h; simp
      · rw [if_neg ho] at h; cases h; simp
  · rw [if_neg hi] at h
    cases hstat : osStat s i with
    | none => rw [hstat] at h; cases h
    | some t =>
      rw [hstat] at h
      cases hW : W.run (mkInv s n i o args) with
      | none => rw [hW] at h; cases h
      | some out =>
        rw [hW] at h
        by_cases ho : o = ""
        · subst ho; rw [if_pos rfl] at h; cases h; simp
        · rw [if_neg ho] at h; cases h; simp

theorem command_shape (W : World) (n i o : String) (args : List String) (s : St) :
    (ustate (command W n i o args s)).cwd = s.cwd ∧
    (ustate (command W n i o args s)).dirs = s.dirs ∧
    (ustate (command W n i o args s)).processed = s.processed := by
  simp only [command, ustate]
  by_cases hi : i = ""
  · subst hi
    rw [if_pos rfl]
    cases hW : W.run (mkInv s n "" o args) with
    | none => simp
    | some out =>
      by_cases ho : o = ""
      · subst ho; simp
      · rw [if_neg ho]; simp
  · rw [if_neg hi]
    cases hstat : osStat s i with
    | none => simp
    | some t =>
      cases hW : W.run (mkInv s n i o args) with
      | none => simp
      | some out =>
        by_cases ho : o = ""
        · subst ho; simp
        · rw [if_neg ho]; simp

theorem command_ok_trace_len (W : World) (n i o : String) (args : List String)
    (s : St) (s' : St) (h : command W n i o args s = .ok ((), s')) :
    s'.trace.length = s.trace.length + 1 := by
  rw [command_ok_trace W n i o args s s' h]
  simp

/-- Does a step start an external process? -/
def hasCmdS : Step → Bool
  | .cmd _ _ _ _ => true
  | _ => false

/-- Does an action start an external process? -/
def hasCmdA : Act → Bool
  | .step st => hasCmdS st
  | .indir _ body => body.any hasCmdS

theorem runStep_shape (W : World) (st : Step) (s : St) :
    (ustate (runStep W st s)).cwd = s.cwd ∧
    (ustate (runStep W st s)).dirs = s.dirs ∧
    (ustate (runStep W st s)).processed = s.processed := by
  cases st with
  | cmd n i o args => exact command_shape W n i o args s
  | del f => simp [runStep, ustate, deleteFile]
  | delSuffix suf => simp [runStep, ustate, deleteSuffix]

theorem runStep_mono (W : World) (st : Step) (s s₁ : St)
    (h : runStep W st s = .ok ((), s₁)) :
    s.trace.length ≤ s₁.trace.length := by
  cases st with
  | cmd n i o args =>
    rw [command_ok_trace_len W n i o args s s₁ h]
    omega
  | del f => cases h; simp [deleteFile]
  | delSuffix suf => cases h; simp [deleteSuffix]

theorem runStep_grow (W : World) (st : Step) (s s₁ : St)
    (hc : hasCmdS st = true) (h : runStep W st s = .ok ((), s₁)) :
    s.trace.length < s₁.trace.length := by
  cases st with
  | cmd n i o args =>
    rw [command_ok_trace_len W n i o args s s₁ h]
    omega
  | del f => cases hc
  | delSuffix suf => cases hc

theorem runSteps_mono (W : World) :
    ∀ (steps : List Step) (s s₁ : St),
      runSteps W steps s = .ok ((), s₁) → s.trace.length ≤ s₁.trace.length := by
  intro steps
  induction steps with
  | nil => intro s s₁ h; cases h; omega
  | cons st rest ih =>
    intro s s₁ h
    simp only [runSteps] at h
    cases hr : runStep W st s with
    | error e => rw [hr] at h; cases h
    | ok p =>
      obtain ⟨⟨⟩, s₂⟩ := p
      rw [hr] at h
      exact le_trans (runStep_mono W st s s₂ hr) (ih s₂ s₁ h)

theorem runSteps_grow (W : World) :
    ∀ (steps : List Step) (s s₁ : St),
      steps.any hasCmdS = true →
      runSteps W steps s = .ok ((), s₁) → s.trace.length < s₁.trace.length := by
  intro steps
  induction steps with
  | nil => intro s s₁ hc; cases hc
  | cons st rest ih =>
    intro s s₁ hc h
    simp only [runSteps] at h
    cases hr : runStep W st s with
    | error e => rw [hr] at h; cases h
    | ok p =>
      obtain ⟨⟨⟩, s₂⟩ := p
      rw [hr] at h
      cases hcs : hasCmdS st with
      | true => exact lt_of_lt_of_le (runStep_grow W st s s₂ hcs hr) (runSteps_mono W rest s₂ s₁ h)
      | false =>
        simp only [List.any_cons, hcs, Bool.false_or] at hc
        exact lt_of_le_of_lt (runStep_mono W st s s₂ hr) (ih s₂ s₁ hc h)

theorem runSteps_shape (W : World) :
    ∀ (steps : List Step) (s : St),
      (ustate (runSteps W steps s)).cwd = s.cwd ∧
      (ustate (runSteps W steps s)).dirs = s.dirs ∧
      (ustate (runSteps W steps s)).processed = s.processed := by
  intro steps
  induction steps with
  | nil => intro s; exact ⟨rfl, rfl, rfl⟩
  | cons st rest ih =>
    intro s
    have hst := runStep_shape W st s
    simp only [runSteps]
    cases hr : runStep W st s with
    | error e =>
      rw [hr] at hst
      exact hst
    | ok p =>
      obtain ⟨⟨⟩, s₂⟩ := p
      rw [hr] at hst
      have hrest := ih s₂
      exact ⟨hst.1 ▸ hrest.1, hst.2.1 ▸ hrest.2.1, hst.2.2 ▸ hrest.2.2⟩

theorem chdir_ok (dir : String) (s : St) (w : String) (s₁ : St)
    (h : chdir dir s = .ok (w, s₁)) :
    w = s.cwd ∧ s₁ = { s with cwd := resolve s.cwd dir } := by
  simp only [chdir] at h
  split at h
  · cases h; exact ⟨rfl, rfl⟩
  · cases h

theorem chdir_error (dir : String) (s e : St) (h : chdir dir s = .error e) : e = s := by
  simp only [chdir] at h
  split at h
  · cases h
  · cases h; rfl

theorem chdir_fail (dir : String) (s : St)
    (h : memStr (resolve s.cwd dir) s.dirs = false) : chdir dir s = .error s := by
  simp only [chdir]
  rw [h]
  simp

theorem resolve_abs (p c : String) (h1 : isAbs p = true) (h2 : normPath p = p) :
    resolve c p = p := by
  unfold resolve
  rw [if_pos h1, h2]

theorem runAct_mono (W : World) (a : Act) (s s₁ : St)
    (h : runAct W a s = .ok ((), s₁)) : s.trace.length ≤ s₁.trace.length := by
  cases a with
  | step st => exact runStep_mono W st s s₁ h
  | indir d body =>
    simp only [runAct] at h
    cases hc : chdir d s with
    | error e => simp only [hc] at h; cases h
    | ok p =>
      obtain ⟨w, s₂⟩ := p
      simp only [hc] at h
      obtain ⟨-, rfl⟩ := chdir_ok d s w s₂ hc
      cases hb : runSteps W body { s with cwd := resolve s.cwd d } with
      | error s₃ =>
        simp only [hb] at h
        cases hc2 : chdir w s₃ with
        | error e => simp only [hc2] at h; cases h
        | ok p₂ => simp only [hc2] at h; cases h
      | ok p₂ =>
        obtain ⟨⟨⟩, s₃⟩ := p₂
        simp only [hb] at h
        have hm := runSteps_mono W body _ s₃ hb
        cases hc2 : chdir w s₃ with
        | error e => simp only [hc2] at h; cases h
        | ok p₃ =>
          obtain ⟨w₂, s₄⟩ := p₃
          simp only [hc2] at h
          obtain ⟨-, rfl⟩ := chdir_ok w s₃ w₂ s₄ hc2
          obtain rfl : s₁ = { s₃ with cwd := resolve s₃.cwd w } := by
            cases h; rfl
          simpa using hm

theorem runAct_grow (W : World) (a : Act) (s s₁ : St)
    (hc : hasCmdA a = true) (h : runAct W a s = .ok ((), s₁)) :
    s.trace.length < s₁.trace.length := by
  cases a with
  | step st => exact runStep_grow W st s s₁ hc h
  | indir d body =>
    simp only [hasCmdA] at hc
    simp only [runAct] at h
    cases hcd : chdir d s with
    | error e => simp only [hcd] at h; cases h
    | ok p =>
      obtain ⟨w, s₂⟩ := p
      simp only [hcd] at h
      obtain ⟨-, rfl⟩ := chdir_ok d s w s₂ hcd
      cases hb : runSteps W body { s with cwd := resolve s.cwd d } with
      | error s₃ =>
        simp only [hb] at h
        cases hc2 : chdir w s₃ with
        | error e => simp only [hc2] at h; cases h
        | ok p₂ => simp only [hc2] at h; cases h
      | ok p₂ =>
        obtain ⟨⟨⟩, s₃⟩ := p₂
        simp only [hb] at h
        have hm := runSteps_grow W body _ s₃ hc hb
        cases hc2 : chdir w s₃ with
        | error e => simp only [hc2] at h; cases h
        | ok p₃ =>
          obtain ⟨w₂, s₄⟩ := p₃
          simp only [hc2] at h
          obtain ⟨-, rfl⟩ := chdir_ok w s₃ w₂ s₄ hc2
          obtain rfl : s₁ = { s₃ with cwd := resolve s₃.cwd w } := by
            cases h; rfl
          simpa using hm

theorem runActs_mono (W : World) :
    ∀ (acts : List Act) (s s₁ : St),
      runActs W acts s = .ok ((), s₁) → s.trace.length ≤ s₁.trace.length := by
  intro acts
  induction acts with
  | nil => intro s s₁ h; cases h; omega
  | cons a rest ih =>
    intro s s₁ h
    simp only [runActs] at h
    cases hr : runAct W a s with
    | error e => rw [hr] at h; cases h
    | ok p =>
      obtain ⟨⟨⟩, s₂⟩ := p
      rw [hr] at h
      exact le_trans (runAct_mono W a s s₂ hr) (ih s₂ s₁ h)

theorem runActs_grow (W : World) :
    ∀ (acts : List Act) (s s₁ : St),
      acts.any hasCmdA = true →
      runActs W acts s = .ok ((), s₁) → s.trace.length < s₁.trace.length := by
  intro acts
  induction acts with
  | nil => intro s s₁ hc; cases hc
  | cons a rest ih =>
    intro s s₁ hc h
    simp only [runActs] at h
    cases hr : runAct W a s with
    | error e => rw [hr] at h; cases h
    | ok p =>
      obtain ⟨⟨⟩, s₂⟩ := p
      rw [hr] at h
      cases hca : hasCmdA a with
      | true => exact lt_of_lt_of_le (runAct_grow W a s s₂ hca hr) (runActs_mono W rest s₂ s₁ h)
      | false =>
        simp only [List.any_cons, hca, Bool.false_or] at hc
        exact lt_of_le_of_lt (runAct_mono W a s s₂ hr) (ih s₂ s₁ hc h)

theorem runActs_append_ok (W : World) :
    ∀ (l₁ l₂ : List Act) (s s₁ : St),
      runActs W l₁ s = .ok ((), s₁) →
      runActs W (l₁ ++ l₂) s = runActs W l₂ s₁ := by
  intro l₁
  induction l₁ with
  | nil => intro l₂ s s₁ h; cases h; rfl
  | cons a rest ih =>
    intro l₂ s s₁ h
    simp only [runActs] at h
    simp only [List.cons_append, runActs]
    cases hr : runAct W a s with
    | error e => rw [hr] at h; cases h
    | ok p =>
      obtain ⟨⟨⟩, s₂⟩ := p
      rw [hr] at h
      exact ih l₂ s₂ s₁ h

theorem runActs_append_err (W : World) :
    ∀ (l₁ l₂ : List Act) (s e : St),
      runActs W l₁ s = .error e →
      runActs W (l₁ ++ l₂) s = .error e := by
  intro l₁
  induction l₁ with
  | nil => intro l₂ s e h; cases h
  | cons a rest ih =>
    intro l₂ s e h
    simp only [runActs] at h
    simp only [List.cons_append, runActs]
    cases hr : runAct W a s with
    | error e' => simp only [hr] at h ⊢; exact h
    | ok p =>
      obtain ⟨⟨⟩, s₂⟩ := p
      rw [hr] at h
      exact ih l₂ s₂ e h

theorem done_trace_mono (out : String) (deps : List Dep) (s : St) (b : Bool) (s' : St)
    (hdeps : ∀ nm f, Dep.func nm f ∈ deps → TraceOK f)
    (h : done out deps s = .ok (b, s')) :
    s.trace.length ≤ s'.trace.length :=
  doneLoop_trace_mono (osStat s out) deps (osStat s out).isSome s b s' hdeps h

theorem done_true_trace (out : String) (deps : List Dep) (s s' : St)
    (hdeps : ∀ nm f, Dep.func nm f ∈ deps → TraceOK f)
    (h : done out deps s = .ok (true, s')) :
    s'.trace = s.trace :=
  depsUpToDate_trace (osStat s out) deps s s' hdeps
    ((doneLoop_true_iff (osStat s out) deps (osStat s out).isSome s s').mp h).2

theorem runTarget_uptodate_iff (W : World) (out : String) (deps : List Dep)
    (acts : List Act)
    (hdeps : ∀ nm f, Dep.func nm f ∈ deps → TraceOK f)
    (hacts : acts.any hasCmdA = true)
    (s : St) (r : Bool) (s' : St)
    (h : runTarget W out deps acts s = .ok (r, s')) :
    s.trace.length ≤ s'.trace.length ∧ (r = true ↔ s'.trace = s.trace) := by
  simp only [runTarget] at h
  cases hd : done out deps s with
  | error e => simp only [hd] at h; cases h
  | ok p =>
    obtain ⟨b, s₁⟩ := p
    cases b with
    | true =>
      simp only [hd] at h
      injection h with hp
      injection hp with hb hs
      subst hb
      subst hs
      have heq := done_true_trace out deps s s₁ hdeps hd
      exact ⟨le_of_eq (congrArg List.length heq.symm), ⟨fun _ => heq, fun _ => rfl⟩⟩
    | false =>
      simp only [hd] at h
      cases hr : runActs W acts s₁ with
      | error e => simp only [hr] at h; cases h
      | ok p₂ =>
        obtain ⟨⟨⟩, s₂⟩ := p₂
        simp only [hr] at h
        injection h with hp
        injection hp with hb hs
        subst hb
        subst hs
        have hm1 := done_trace_mono out deps s false s₁ hdeps hd
        have hm2 := runActs_grow W acts s₁ s₂ hacts hr
        refine ⟨by omega, ⟨fun hcontra => (nomatch hcontra), fun htr => ?_⟩⟩
        exfalso
        have hm3 : s₂.trace.length = s.trace.length := congrArg List.length htr
        omega

theorem traceOK_of_iff {f : St → Except St (Bool × St)}
    (H : ∀ s r s', f s = .ok (r, s') →
      s.trace.length ≤ s'.trace.length ∧ (r = true ↔ s'.trace = s.trace)) :
    TraceOK f :=
  fun s r s' h => ⟨(H s r s' h).1, (H s r s' h).2.mp⟩

theorem bootstrap_iff (W : World) : ∀ s r s', bootstrap W s = .ok (r, s') →
    s.trace.length ≤ s'.trace.length ∧ (r = true ↔ s'.trace = s.trace) := by
  intro s r s' h
  refine runTarget_uptodate_iff W _ _ _ ?_ (by decide) s r s' h
  intro nm f hm
  simp at hm

theorem bootstrap_traceOK (W : World) : TraceOK (bootstrap W) :=
  traceOK_of_iff (bootstrap_iff W)

theorem peg0_iff (W : World) : ∀ s r s', peg0 W s = .ok (r, s') →
    s.trace.length ≤ s'.trace.length ∧ (r = true ↔ s'.trace = s.trace) := by
  intro s r s' h
  refine runTarget_uptodate_iff W _ _ _ ?_ (by decide) s r s' h
  intro nm f hm
  simp at hm
  obtain ⟨rfl, rfl⟩ := hm
  exact bootstrap_traceOK W

theorem peg0_traceOK (W : World) : TraceOK (peg0 W) :=
  traceOK_of_iff (peg0_iff W)

theorem peg1_iff (W : World) : ∀ s r s', peg1 W s = .ok (r, s') →
    s.trace.length ≤ s'.trace.length ∧ (r = true ↔ s'.trace = s.trace) := by
  intro s r s' h
  refine runTarget_uptodate_iff W _ _ _ ?_ (by decide) s r s' h
  intro nm f hm
  simp at hm
  obtain ⟨rfl, rfl⟩ := hm
  exact peg0_traceOK W

theorem peg1_traceOK (W : World) : TraceOK (peg1 W) :=
  traceOK_of_iff (peg1_iff W)

theorem peg2_iff (W : World) : ∀ s r s', peg2 W s = .ok (r, s') →
    s.trace.length ≤ s'.trace.length ∧ (r = true ↔ s'.trace = s.trace) := by
  intro s r s' h
  refine runTarget_uptodate_iff W _ _ _ ?_ (by decide) s r s' h
  intro nm f hm
  simp at hm
  obtain ⟨rfl, rfl⟩ := hm
  exact peg1_traceOK W

theorem peg2_traceOK (W : World) : TraceOK (peg2 W) :=
  traceOK_of_iff (peg2_iff W)

theorem peg3_iff (W : World) : ∀ s r s', peg3 W s = .ok (r, s') →
    s.trace.length ≤ s'.trace.length ∧ (r = true ↔ s'.trace = s.trace) := by
  intro s r s' h
  refine runTarget_uptodate_iff W _ _ _ ?_ (by decide) s r s' h
  intro nm f hm
  simp at hm
  obtain ⟨rfl, rfl⟩ := hm
  exact peg2_traceOK W

theorem peg3_traceOK (W : World) : TraceOK (peg3 W) :=
  traceOK_of_iff (peg3_iff W)

theorem peg_bootstrap_iff (W : World) : ∀ s r s', peg_bootstrap W s = .ok (r, s') →
    s.trace.length ≤ s'.trace.length ∧ (r = true ↔ s'.trace = s.trace) := by
  intro s r s' h
  refine runTarget_uptodate_iff W _ _ _ ?_ (by decide) s r s' h
  intro nm f hm
  simp at hm
  obtain ⟨rfl, rfl⟩ := hm
  exact peg3_traceOK W

theorem peg_bootstrap_traceOK (W : World) : TraceOK (peg_bootstrap W) :=
  traceOK_of_iff (peg_bootstrap_iff W)

theorem peg_peg_go_iff (W : World) : ∀ s r s', peg_peg_go W s = .ok (r, s') →
    s.trace.length ≤ s'.trace.length ∧ (r = true ↔ s'.trace = s.trace) := by
  intro s r s' h
  refine runTarget_uptodate_iff W _ _ _ ?_ (by decide) s r s' h
  intro nm f hm
  simp at hm
  obtain ⟨rfl, rfl⟩ := hm
  exact peg_bootstrap_traceOK W

theorem peg_peg_go_traceOK (W : World) : TraceOK (peg_peg_go W) :=
  traceOK_of_iff (peg_peg_go_iff W)

theorem peg_iff (W : World) : ∀ s r s', peg W s = .ok (r, s') →
    s.trace.length ≤ s'.trace.length ∧ (r = true ↔ s'.trace = s.trace) := by
  intro s r s' h
  refine runTarget_uptodate_iff W _ _ _ ?_ (by decide) s r s' h
  intro nm f hm
  simp at hm
  obtain ⟨rfl, rfl⟩ := hm
  exact peg_peg_go_traceOK W

theorem peg_traceOK (W : World) : TraceOK (peg W) :=
  traceOK_of_iff (peg_iff W)

theorem grammars_c_iff (W : World) : ∀ s r s', grammars_c W s = .ok (r, s') →
    s.trace.length ≤ s'.trace.length ∧ (r = true ↔ s'.trace = s.trace) := by
  intro s r s' h
  refine runTarget_uptodate_iff W _ _ _ ?_ (by decide) s r s' h
  intro nm f hm
  simp at hm
  obtain ⟨rfl, rfl⟩ := hm
  exact peg_traceOK W

theorem grammars_c_traceOK (W : World) : TraceOK (grammars_c W) :=
  traceOK_of_iff (grammars_c_iff W)

theorem grammars_calculator_iff (W : World) : ∀ s r s', grammars_calculator W s = .ok (r, s') →
    s.trace.length ≤ s'.trace.length ∧ (r = true ↔ s'.trace = s.trace) := by
  intro s r s' h
  refine runTarget_uptodate_iff W _ _ _ ?_ (by decide) s r s' h
  intro nm f hm
  simp at hm
  obtain ⟨rfl, rfl⟩ := hm
  exact peg_traceOK W

theorem grammars_calculator_traceOK (W : World) : TraceOK (grammars_calculator W) :=
  traceOK_of_iff (grammars_calculator_iff W)

theorem grammars_calculator_ast_iff (W : World) : ∀ s r s', grammars_calculator_ast W s = .ok (r, s') →
    s.trace.length ≤ s'.trace.length ∧ (r = true ↔ s'.trace = s.trace) := by
  intro s r s' h
  refine runTarget_uptodate_iff W _ _ _ ?_ (by decide) s r s' h
  intro nm f hm
  simp at hm
  obtain ⟨rfl, rfl⟩ := hm
  exact peg_traceOK W

theorem grammars_calculator_ast_traceOK (W : World) : TraceOK (grammars_calculator_ast W) :=
  traceOK_of_iff (grammars_calculator_ast_iff W)

theorem grammars_fexl_iff (W : World) : ∀ s r s', grammars_fexl W s = .ok (r, s') →
    s.trace.length ≤ s'.trace.length ∧ (r = true ↔ s'.trace = s.trace) := by
  intro s r s' h
  refine runTarget_uptodate_iff W _ _ _ ?_ (by decide) s r s' h
  intro nm f hm
  simp at hm
  obtain ⟨rfl, rfl⟩ := hm
  exact peg_traceOK W

theorem grammars_fexl_traceOK (W : World) : TraceOK (grammars_fexl W) :=
  traceOK_of_iff (grammars_fexl_iff W)

theorem grammars_java_iff (W : World) : ∀ s r s', grammars_java W s = .ok (r, s') →
    s.trace.length ≤ s'.trace.length ∧ (r = true ↔ s'.trace = s.trace) := by
  intro s r s' h
  refine runTarget_uptodate_iff W _ _ _ ?_ (by decide) s r s' h
  intro nm f hm
  simp at hm
  obtain ⟨rfl, rfl⟩ := hm
  exact peg_traceOK W

theorem grammars_java_traceOK (W : World) : TraceOK (grammars_java W) :=
  traceOK_of_iff (grammars_java_iff W)

theorem grammars_long_test_iff (W : World) : ∀ s r s', grammars_long_test W s = .ok (r, s') →
    s.trace.length ≤ s'.trace.length ∧ (r = true ↔ s'.trace = s.trace) := by
  intro s r s' h
  refine runTarget_uptodate_iff W _ _ _ ?_ (by decide) s r s' h
  intro nm f hm
  simp at hm
  obtain ⟨rfl, rfl⟩ := hm
  exact peg_traceOK W

theorem grammars_long_test_traceOK (W : World) : TraceOK (grammars_long_test W) :=
  traceOK_of_iff (grammars_long_test_iff W)

theorem test_iff (W : World) : ∀ s r s', test W s = .ok (r, s') →
    s.trace.length ≤ s'.trace.length ∧ (r = true ↔ s'.trace = s.trace) := by
  intro s r s' h
  refine runTarget_uptodate_iff W _ _ _ ?_ (by decide) s r s' h
  intro nm f hm
  simp at hm
  rcases hm with ⟨rfl, rfl⟩ | ⟨rfl, rfl⟩ | ⟨rfl, rfl⟩ | ⟨rfl, rfl⟩ | ⟨rfl, rfl⟩ | ⟨rfl, rfl⟩
  · exact grammars_c_traceOK W
  · exact grammars_calculator_traceOK W
  · exact grammars_calculator_ast_traceOK W
  · exact grammars_fexl_traceOK W
  · exact grammars_java_traceOK W
  · exact grammars_long_test_traceOK W

theorem done_empty_false (deps : List Dep) (s : St) (b : Bool) (s' : St)
    (h : done "" deps s = .ok (b, s')) : b = false :=
  doneLoop_acc_false none deps s b s' h

theorem runTarget_empty_false (W : World) (deps : List Dep) (acts : List Act)
    (s : St) (r : Bool) (s' : St)
    (h : runTarget W "" deps acts s = .ok (r, s')) : r = false := by
  simp only [runTarget] at h
  cases hd : done "" deps s with
  | error e => simp only [hd] at h; cases h
  | ok p =>
    obtain ⟨b, s₁⟩ := p
    have hb := done_empty_false deps s b s₁ hd
    subst hb
    simp only [hd] at h
    cases hr : runActs W acts s₁ with
    | error e => simp only [hr] at h; cases h
    | ok p₂ =>
      obtain ⟨⟨⟩, s₂⟩ := p₂
      simp only [hr] at h
      injection h with hp
      injection hp with hb2 _
      exact hb2.symm

/-- Auxiliary state for concrete instantiations: a root directory with a
target output `o` and a dependency `d`, both with modification time 0. -/
def sWit : St :=
  { cwd := "/r", fs := [("/r/o", 0), ("/r/d", 0)], dirs := ["/r"],
    processed := [], trace := [], clock := 0 }

/-- Auxiliary state for concrete instantiations: empty filesystem. -/
def sNoFiles : St :=
  { cwd := "/r", fs := [], dirs := ["/r"], processed := [], trace := [], clock := 0 }

/-- C1: for every target evaluated via `done`, the evaluation reports up
to date (returns `true`) if and only if the declared output path exists
on disk, every `FilePath` (string) dependency has a modification time
not newer than the output's, and every `TargetReference` (function)
dependency's evaluation reported up to date (the cached result when the
reference was already resolved this run, otherwise the result of
evaluating it now) — the conjunction expressed by `DepsUpToDate` over
the traversal `done` performs. -/
theorem done_up_to_date_iff (out : String) (deps : List Dep) (s : St) (b : Bool) (s' : St)
    (h : done out deps s = .ok (b, s')) :
    b = true ↔ ((∃ om, osStat s out = some om) ∧ DepsUpToDate (osStat s out) deps s s') := by
  constructor
  · intro hb
    subst hb
    have hm := (doneLoop_true_iff (osStat s out) deps (osStat s out).isSome s s').mp h
    refine ⟨?_, hm.2⟩
    cases ho : osStat s out with
    | none => rw [ho] at hm; cases hm.1
    | some om => exact ⟨om, rfl⟩
  · rintro ⟨⟨om, hom⟩, hd⟩
    have hloop : doneLoop (osStat s out) deps (osStat s out).isSome s = .ok (true, s') := by
      apply (doneLoop_true_iff (osStat s out) deps (osStat s out).isSome s s').mpr
      exact ⟨by rw [hom]; rfl, hd⟩
    have h' : done out deps s = .ok (true, s') := hloop
    rw [h] at h'
    simpa using h'

/-- C1 witness: at a concrete state where the output exists and its one
file dependency is not newer, `done` returns `true` and the spec-side
condition holds. -/
theorem done_up_to_date_iff_witness :
    (∃ om, osStat sWit "o" = some om) ∧
      DepsUpToDate (osStat sWit "o") [Dep.str "d"] sWit sWit :=
  (done_up_to_date_iff "o" [Dep.str "d"] sWit true sWit rfl).mp rfl

/-- C2: each of the fifteen target functions evaluated through `done`
(`bootstrap`, `peg0`–`peg3`, `peg_bootstrap`, `peg_peg_go`, `peg`, the
six grammar targets, and `test`) returns `true` exactly when no process
invocation was performed during the call — in particular its own action
was not run — and returns `false` exactly when invocations were
performed (its action ran); there is no execution in which the action
runs and the function still returns `true`. -/
theorem target_true_iff_action_not_run :
    (∀ (W : World) (s : St) (r : Bool) (s' : St), bootstrap W s = .ok (r, s') → (r = true ↔ s'.trace = s.trace)) ∧
    (∀ (W : World) (s : St) (r : Bool) (s' : St), peg0 W s = .ok (r, s') → (r = true ↔ s'.trace = s.trace)) ∧
    (∀ (W : World) (s : St) (r : Bool) (s' : St), peg1 W s = .ok (r, s') → (r = true ↔ s'.trace = s.trace)) ∧
    (∀ (W : World) (s : St) (r : Bool) (s' : St), peg2 W s = .ok (r, s') → (r = true ↔ s'.trace = s.trace)) ∧
    (∀ (W : World) (s : St) (r : Bool) (s' : St), peg3 W s = .ok (r, s') → (r = true ↔ s'.trace = s.trace)) ∧
    (∀ (W : World) (s : St) (r : Bool) (s' : St), peg_bootstrap W s = .ok (r, s') → (r = true ↔ s'.trace = s.trace)) ∧
    (∀ (W : World) (s : St) (r : Bool) (s' : St), peg_peg_go W s = .ok (r, s') → (r = true ↔ s'.trace = s.trace)) ∧
    (∀ (W : World) (s : St) (r : Bool) (s' : St), peg W s = .ok (r, s') → (r = true ↔ s'.trace = s.trace)) ∧
    (∀ (W : World) (s : St) (r : Bool) (s' : St), grammars_c W s = .ok (r, s') → (r = true ↔ s'.trace = s.trace)) ∧
    (∀ (W : World) (s : St) (r : Bool) (s' : St), grammars_calculator W s = .ok (r, s') → (r = true ↔ s'.trace = s.trace)) ∧
    (∀ (W : World) (s : St) (r : Bool) (s' : St), grammars_calculator_ast W s = .ok (r, s') → (r = true ↔ s'.trace = s.trace)) ∧
    (∀ (W : World) (s : St) (r : Bool) (s' : St), grammars_fexl W s = .ok (r, s') → (r = true ↔ s'.trace = s.trace)) ∧
    (∀ (W : World) (s : St) (r : Bool) (s' : St), grammars_java W s = .ok (r, s') → (r = true ↔ s'.trace = s.trace)) ∧
    (∀ (W : World) (s : St) (r : Bool) (s' : St), grammars_long_test W s = .ok (r, s') → (r = true ↔ s'.trace = s.trace)) ∧
    (∀ (W : World) (s : St) (r : Bool) (s' : St), test W s = .ok (r, s') → (r = true ↔ s'.trace = s.trace)) :=
  ⟨fun W s r s' h => (bootstrap_iff W s r s' h).2,
   fun W s r s' h => (peg0_iff W s r s' h).2,
   fun W s r s' h => (peg1_iff W s r s' h).2,
   fun W s r s' h => (peg2_iff W s r s' h).2,
   fun W s r s' h => (peg3_iff W s r s' h).2,
   fun W s r s' h => (peg_bootstrap_iff W s r s' h).2,
   fun W s r s' h => (peg_peg_go_iff W s r s' h).2,
   fun W s r s' h => (peg_iff W s r s' h).2,
   fun W s r s' h => (grammars_c_iff W s r s' h).2,
   fun W s r s' h => (grammars_calculator_iff W s r s' h).2,
   fun W s r s' h => (grammars_calculator_ast_iff W s r s' h).2,
   fun W s r s' h => (grammars_fexl_iff W s r s' h).2,
   fun W s r s' h => (grammars_java_iff W s r s' h).2,
   fun W s r s' h => (grammars_long_test_iff W s r s' h).2,
   fun W s r s' h => (test_iff W s r s' h).2⟩

/-- C2 witness: on the fully built repository state, `bootstrap` returns
`true` and indeed performed no invocation. -/
theorem target_true_iff_action_not_run_witness :
    (true = true) ↔ (sUp.trace = sUp.trace) :=
  target_true_iff_action_not_run.1 allOk sUp true sUp rfl

/-- C3 counterexample: every grammar target referenced by `test` reports
up to date on the fully built state, yet evaluating `test` does not skip
its action — it returns `false` and performs the `go test` invocation.
This refutes "if every referenced dependency target reports up to date,
its evaluation skips the action". -/
theorem test_runs_action_with_deps_up_to_date :
    resultBool (grammars_c allOk sUp) = some true ∧
    resultBool (grammars_calculator allOk sUp) = some true ∧
    resultBool (grammars_calculator_ast allOk sUp) = some true ∧
    resultBool (grammars_fexl allOk sUp) = some true ∧
    resultBool (grammars_java allOk sUp) = some true ∧
    resultBool (grammars_long_test allOk sUp) = some true ∧
    resultBool (test allOk sUp) = some false ∧
    (stateOf (test allOk sUp)).trace =
      [mkInv sUp "go" "" "" ["test", "-short", "-tags", "grammars", "./..."]] := by
  refine ⟨?_, ?_, ?_, ?_, ?_, ?_, ?_, ?_⟩ <;> decide

/-- C3 (amended): a target declared with an empty output path (the
`test` aggregate target) is never reported up to date and never skips
its action: `done("")` always returns `false` because the initial stat
of `""` fails and that failure is folded into the running conjunction,
so regardless of the referenced dependencies' status (they are still all
evaluated and cached) every normal return of `test` is `false` and its
action runs. -/
theorem empty_output_always_runs :
    (∀ (deps : List Dep) (s : St) (b : Bool) (s' : St),
       done "" deps s = .ok (b, s') → b = false) ∧
    (∀ (W : World) (s : St) (r : Bool) (s' : St),
       test W s = .ok (r, s') → r = false) :=
  ⟨done_empty_false, fun W s r s' h => runTarget_empty_false W _ _ s r s' h⟩

/-- C3 witness: the amended claim instantiated on the fully built state. -/
theorem empty_output_always_runs_witness : (false : Bool) = false :=
  empty_output_always_runs.2 allOk sUp false (stateOf (test allOk sUp)) rfl

/-- C5 counterexample: with the output missing, a declared string
dependency that does not exist on disk is not statted and not fatal —
`done` returns normally instead of aborting. -/
theorem done_missing_dep_not_fatal :
    osStat sNoFiles "dep" = none ∧
    done "out" [Dep.str "dep"] sNoFiles = .ok (false, sNoFiles) := ⟨rfl, rfl⟩

/-- C5 (amended): a string dependency is statted only when the stat of
the target's output succeeded; in that case a dependency stat failure is
fatal (the run aborts with a panic).  When the output stat failed, the
string dependency is skipped without being statted — the entry's `break`
leaves the loop's switch before the stat — and evaluation continues
normally with the result already marked stale. -/
theorem done_dep_stat (out d : String) (rest : List Dep) (s : St) :
    (∀ om : Nat, osStat s out = some om → osStat s d = none →
       done out (Dep.str d :: rest) s = .error s) ∧
    (osStat s out = none →
       done out (Dep.str d :: rest) s = doneLoop none rest false s) := by
  constructor
  · intro om hom hd
    unfold done
    rw [hom]
    simp only [doneLoop, hd]
  · intro hom
    unfold done
    rw [hom]
    simp only [doneLoop]

/-- C5 witness: with the output present and the dependency missing, the
amended claim's fatal branch fires — `done` aborts. -/
theorem done_dep_stat_witness :
    done "o" [Dep.str "missing"] sWit = .error sWit :=
  (done_dep_stat "o" "missing" [] sWit).1 0 rfl rfl

/-- C10: a dependency value whose type is neither a string nor a
function returning bool matches no case of `done`'s type switch and is
silently ignored: wherever it appears in the dependency list, and
whatever value it carries, the evaluation (result, cache, every side
effect) is identical to the evaluation without it. -/
theorem done_ignores_other_deps (out : String) (v : Nat) :
    ∀ (pre post : List Dep) (s : St),
      done out (pre ++ Dep.other v :: post) s = done out (pre ++ post) s := by
  have hloop : ∀ (info : Option Nat) (pre : List Dep) (post : List Dep) (fini : Bool) (s : St),
      doneLoop info (pre ++ Dep.other v :: post) fini s = doneLoop info (pre ++ post) fini s := by
    intro info pre
    induction pre with
    | nil =>
      intro post fini s
      simp only [List.nil_append, doneLoop]
    | cons d rest ih =>
      intro post fini s
      cases d with
      | str p =>
        cases info with
        | none =>
          simp only [List.cons_append, doneLoop]
          exact ih post false s
        | some om =>
          simp only [List.cons_append, doneLoop]
          cases osStat s p with
          | none => rfl
          | some dm => exact ih post _ s
      | func nm f =>
        simp only [List.cons_append, doneLoop]
        cases lookupB nm s.processed with
        | some r => exact ih post _ s
        | none =>
          cases f s with
          | error e => rfl
          | ok p =>
            obtain ⟨b₁, s₁⟩ := p
            exact ih post _ _
      | other w =>
        simp only [List.cons_append, doneLoop]
        exact ih post fini s
  intro pre post s
  exact hloop (osStat s out) pre post (osStat s out).isSome s

/-- C6: the memoization of `done`: a target-reference dependency whose
name is already in the `processed` map is not re-evaluated (the result
is independent of the referenced function), its cached boolean is folded
into the running result with the state untouched; an uncached reference
is evaluated exactly once and its boolean stored under its name; and a
second reference to the same name in the same evaluation reuses the
stored boolean without invoking its function. -/
theorem done_memoization :
    (∀ (out nm : String) (f g : St → Except St (Bool × St)) (rest : List Dep) (s : St) (r : Bool),
       lookupB nm s.processed = some r →
       done out (Dep.func nm f :: rest) s = done out (Dep.func nm g :: rest) s) ∧
    (∀ (info : Option Nat) (nm : String) (f : St → Except St (Bool × St))
       (rest : List Dep) (fini : Bool) (s : St) (r : Bool),
       lookupB nm s.processed = some r →
       doneLoop info (Dep.func nm f :: rest) fini s = doneLoop info rest (fini && r) s) ∧
    (∀ (info : Option Nat) (nm : String) (f : St → Except St (Bool × St))
       (rest : List Dep) (fini : Bool) (s : St) (b₁ : Bool) (s₁ : St),
       lookupB nm s.processed = none → f s = .ok (b₁, s₁) →
       doneLoop info (Dep.func nm f :: rest) fini s =
         doneLoop info rest (fini && b₁) { s₁ with processed := (nm, b₁) :: s₁.processed }) ∧
    (∀ (info : Option Nat) (nm : String) (f g : St → Except St (Bool × St))
       (rest : List Dep) (fini : Bool) (s : St) (b₁ : Bool) (s₁ : St),
       lookupB nm s.processed = none → f s = .ok (b₁, s₁) →
       doneLoop info (Dep.func nm f :: Dep.func nm g :: rest) fini s =
         doneLoop info rest ((fini && b₁) && b₁) { s₁ with processed := (nm, b₁) :: s₁.processed }) := by
  have hcached : ∀ (info : Option Nat) (nm : String) (f : St → Except St (Bool × St))
      (rest : List Dep) (fini : Bool) (s : St) (r : Bool),
      lookupB nm s.processed = some r →
      doneLoop info (Dep.func nm f :: rest) fini s = doneLoop info rest (fini && r) s := by
    intro info nm f rest fini s r hl
    simp only [doneLoop, hl]
  have hfresh : ∀ (info : Option Nat) (nm : String) (f : St → Except St (Bool × St))
      (rest : List Dep) (fini : Bool) (s : St) (b₁ : Bool) (s₁ : St),
      lookupB nm s.processed = none → f s = .ok (b₁, s₁) →
      doneLoop info (Dep.func nm f :: rest) fini s =
        doneLoop info rest (fini && b₁) { s₁ with processed := (nm, b₁) :: s₁.processed } := by
    intro info nm f rest fini s b₁ s₁ hl hf
    simp only [doneLoop, hl, hf]
  refine ⟨?_, hcached, hfresh, ?_⟩
  · intro out nm f g rest s r hl
    unfold done
    rw [hcached (osStat s out) nm f rest _ s r hl,
        hcached (osStat s out) nm g rest _ s r hl]
  · intro info nm f g rest fini s b₁ s₁ hl hf
    rw [hfresh info nm f (Dep.func nm g :: rest) fini s b₁ s₁ hl hf]
    exact hcached info nm g rest (fini && b₁) _ b₁ (by simp [lookupB])

/-- Two concrete target references with different behaviours, used to
instantiate the memoization theorem. -/
def fTrue : St → Except St (Bool × St) := fun s => .ok (true, s)

def fFalse : St → Except St (Bool × St) := fun s => .ok (false, s)

/-- A state whose cache already records target `n` as up to date. -/
def sCached : St :=
  { cwd := "/r", fs := [], dirs := ["/r"], processed := [("n", true)],
    trace := [], clock := 0 }

/-- C6 witness: with `n` cached, `done` gives the same result whichever
function stands behind the reference — it is not invoked. -/
theorem done_memoization_witness :
    done "o" [Dep.func "n" fTrue] sCached = done "o" [Dep.func "n" fFalse] sCached :=
  done_memoization.1 "o" "n" fTrue fFalse [] sCached true rfl

/-- C7: staleness propagates transitively through a chain of targets.
For any chain A ← B ← C (B references A by name, C references B), if a
leaf file dependency of A is strictly newer than A's existing output and
neither reference is cached yet, then evaluating C evaluates B which
evaluates A; A's `done` is false (newer leaf), so A runs its action and
returns false, which forces B's folded result false (B runs its action,
returns false), which forces C's folded result false (C runs its action,
returns false) — whatever the states of B's and C's own outputs. -/
theorem staleness_propagates (W : World) (outA outB outC leaf nmA nmB : String)
    (actA actB actC : List Act) (s : St) (om lm : Nat) (sA sB sC : St)
    (hOut : osStat s outA = some om) (hLeaf : osStat s leaf = some lm)
    (hNewer : om < lm)
    (hcA : lookupB nmA s.processed = none) (hcB : lookupB nmB s.processed = none)
    (hA : runActs W actA s = .ok ((), sA))
    (hB : runActs W actB { sA with processed := (nmA, false) :: sA.processed } = .ok ((), sB))
    (hC : runActs W actC { sB with processed := (nmB, false) :: sB.processed } = .ok ((), sC)) :
    runTarget W outA [Dep.str leaf] actA s = .ok (false, sA) ∧
    runTarget W outB [Dep.func nmA (runTarget W outA [Dep.str leaf] actA)] actB s
      = .ok (false, sB) ∧
    runTarget W outC
      [Dep.func nmB
        (runTarget W outB [Dep.func nmA (runTarget W outA [Dep.str leaf] actA)] actB)]
      actC s = .ok (false, sC) := by
  have hAdone : done outA [Dep.str leaf] s = .ok (false, s) := by
    unfold done
    rw [hOut]
    simp only [doneLoop, hLeaf, if_pos hNewer]
  have hAeval : runTarget W outA [Dep.str leaf] actA s = .ok (false, sA) := by
    simp only [runTarget, hAdone, hA]
  have hBdone : done outB [Dep.func nmA (runTarget W outA [Dep.str leaf] actA)] s
      = .ok (false, { sA with processed := (nmA, false) :: sA.processed }) := by
    unfold done
    simp only [doneLoop, hcA, hAeval, Bool.and_false]
  have hBeval : runTarget W outB
      [Dep.func nmA (runTarget W outA [Dep.str leaf] actA)] actB s = .ok (false, sB) := by
    simp only [runTarget, hBdone, hB]
  have hCdone : done outC
      [Dep.func nmB
        (runTarget W outB [Dep.func nmA (runTarget W outA [Dep.str leaf] actA)] actB)] s
      = .ok (false, { sB with processed := (nmB, false) :: sB.processed }) := by
    unfold done
    simp only [doneLoop, hcB, hBeval, Bool.and_false]
  have hCeval : runTarget W outC
      [Dep.func nmB
        (runTarget W outB [Dep.func nmA (runTarget W outA [Dep.str leaf] actA)] actB)]
      actC s = .ok (false, sC) := by
    simp only [runTarget, hCdone, hC]
  exact ⟨hAeval, hBeval, hCeval⟩

/-- A chain scenario: the output `o` exists with time 0, the leaf `l` is
newer (time 1). -/
def sChain : St :=
  { cwd := "/r", fs := [("/r/o", 0), ("/r/l", 1)], dirs := ["/r"],
    processed := [], trace := [], clock := 0 }

def actOf (nm : String) : List Act := [.step (.cmd nm "" "" [])]

def sChainA : St := ustate (runActs allOk (actOf "a") sChain)

def sChainB : St :=
  ustate (runActs allOk (actOf "b") { sChainA with processed := ("A", false) :: sChainA.processed })

def sChainC : St :=
  ustate (runActs allOk (actOf "c") { sChainB with processed := ("B", false) :: sChainB.processed })

/-- C7 witness: the chain theorem instantiated at a concrete world and
state where the leaf is newer than A's output — A, B and C all evaluate
to `false` with their actions run. -/
theorem staleness_propagates_witness :
    runTarget allOk "o" [Dep.str "l"] (actOf "a") sChain = .ok (false, sChainA) ∧
    runTarget allOk "ob" [Dep.func "A" (runTarget allOk "o" [Dep.str "l"] (actOf "a"))]
      (actOf "b") sChain = .ok (false, sChainB) ∧
    runTarget allOk "oc"
      [Dep.func "B"
        (runTarget allOk "ob" [Dep.func "A" (runTarget allOk "o" [Dep.str "l"] (actOf "a"))]
          (actOf "b"))]
      (actOf "c") sChain = .ok (false, sChainC) :=
  staleness_propagates allOk "o" "ob" "oc" "l" "A" "B"
    (actOf "a") (actOf "b") (actOf "c") sChain 0 1 sChainA sChainB sChainC
    rfl rfl (by decide) rfl rfl rfl rfl rfl

/-- C8: a failing process invocation aborts the run immediately.  If the
action steps before a `command` all succeed and the oracle fails that
invocation (spawn failure, non-zero exit, or I/O error), the whole
action sequence evaluates to a panic whose trace ends with the failing
invocation — whatever steps follow it, none of them executes, and there
is no retry.  A panic propagates unchanged through `done` into every
dependent target: a referenced target that aborts makes the referencing
evaluation abort with the same state before anything else runs. -/
theorem command_failure_aborts (W : World) :
    (∀ (acts₁ acts₂ : List Act) (n i o : String) (args : List String) (s s₁ : St),
       runActs W acts₁ s = .ok ((), s₁) →
       (i = "" ∨ osStat s₁ i ≠ none) →
       W.run (mkInv s₁ n i o args) = none →
       runActs W (acts₁ ++ Act.step (Step.cmd n i o args) :: acts₂) s =
         .error { s₁ with trace := s₁.trace ++ [mkInv s₁ n i o args] }) ∧
    (∀ (out nm : String) (f : St → Except St (Bool × St)) (rest : List Dep) (s e : St),
       lookupB nm s.processed = none → f s = .error e →
       done out (Dep.func nm f :: rest) s = .error e) := by
  constructor
  · intro acts₁ acts₂ n i o args s s₁ h1 h2 h3
    rw [runActs_append_ok W acts₁ (Act.step (Step.cmd n i o args) :: acts₂) s s₁ h1]
    have hcmd : command W n i o args s₁ =
        .error { s₁ with trace := s₁.trace ++ [mkInv s₁ n i o args] } := by
      simp only [command]
      by_cases hi : i = ""
      · subst hi
        rw [if_pos rfl, h3]
      · rw [if_neg hi]
        cases hstat : osStat s₁ i with
        | none =>
          rcases h2 with hi' | hne
          · exact absurd hi' hi
          · exact absurd hstat hne
        | some t => rw [h3]
    simp only [runActs, runAct, runStep, hcmd]
  · intro out nm f rest s e hl hf
    unfold done
    simp only [doneLoop, hl, hf]

/-- C8 witness: with a failing world, the first command of an action
panics and the following command never executes. -/
theorem command_failure_aborts_witness :
    runActs allFail
      ([] ++ Act.step (Step.cmd "x" "" "" []) :: [Act.step (Step.cmd "y" "" "" [])]) sChain =
      .error { sChain with trace := sChain.trace ++ [mkInv sChain "x" "" "" []] } :=
  (command_failure_aborts allFail).1 [] [Act.step (Step.cmd "y" "" "" [])]
    "x" "" "" [] sChain sChain rfl (Or.inl rfl) rfl

/-- C9: scoped directory switching.  `chdir dir` returns the directory
that was current before the change (and moves into the resolved target),
a failed change of directory is a panic that aborts the run, and an
action block that enters another directory restores the caller's working
directory on every exit path — on normal return and, via the deferred
`chdir(wd)` that Go runs during panic unwinding, on aborts too. -/
theorem chdir_scoped (W : World) :
    (∀ (dir : String) (s : St) (w : String) (s' : St),
       chdir dir s = .ok (w, s') → w = s.cwd ∧ s'.cwd = resolve s.cwd dir) ∧
    (∀ (dir : String) (s : St),
       memStr (resolve s.cwd dir) s.dirs = false → chdir dir s = .error s) ∧
    (∀ (d : String) (body : List Step) (s s' : St),
       isAbs s.cwd = true → normPath s.cwd = s.cwd → memStr s.cwd s.dirs = true →
       runAct W (.indir d body) s = .ok ((), s') → s'.cwd = s.cwd) ∧
    (∀ (d : String) (body : List Step) (s s' : St),
       isAbs s.cwd = true → normPath s.cwd = s.cwd → memStr s.cwd s.dirs = true →
       runAct W (.indir d body) s = .error s' → s'.cwd = s.cwd) := by
  refine ⟨?_, ?_, ?_, ?_⟩
  · intro dir s w s' h
    obtain ⟨hw, hs⟩ := chdir_ok dir s w s' h
    subst hs
    exact ⟨hw, rfl⟩
  · exact fun dir s h => chdir_fail dir s h
  · intro d body s s' h1 h2 h3 h
    simp only [runAct] at h
    cases hc : chdir d s with
    | error e => simp only [hc] at h; cases h
    | ok p =>
      obtain ⟨w, s₂⟩ := p
      simp only [hc] at h
      obtain ⟨rfl, rfl⟩ := chdir_ok d s w s₂ hc
      cases hb : runSteps W body { s with cwd := resolve s.cwd d } with
      | ok p₂ =>
        obtain ⟨⟨⟩, s₃⟩ := p₂
        simp only [hb] at h
        have hsh := runSteps_shape W body { s with cwd := resolve s.cwd d }
        rw [hb] at hsh
        simp only [ustate] at hsh
        have hres : resolve s₃.cwd s.cwd = s.cwd := resolve_abs s.cwd s₃.cwd h1 h2
        have hmem : memStr s.cwd s₃.dirs = true := by rw [hsh.2.1]; exact h3
        have hch : chdir s.cwd s₃ = .ok (s₃.cwd, { s₃ with cwd := s.cwd }) := by
          simp only [chdir, hres, hmem, if_true]
        simp only [hch] at h
        injection h with hp
        injection hp with _ hs
        subst hs
        rfl
      | error s₃ =>
        simp only [hb] at h
        have hsh := runSteps_shape W body { s with cwd := resolve s.cwd d }
        rw [hb] at hsh
        simp only [ustate] at hsh
        have hres : resolve s₃.cwd s.cwd = s.cwd := resolve_abs s.cwd s₃.cwd h1 h2
        have hmem : memStr s.cwd s₃.dirs = true := by rw [hsh.2.1]; exact h3
        have hch : chdir s.cwd s₃ = .ok (s₃.cwd, { s₃ with cwd := s.cwd }) := by
          simp only [chdir, hres, hmem, if_true]
        simp only [hch] at h
        cases h
  · intro d body s s' h1 h2 h3 h
    simp only [runAct] at h
    cases hc : chdir d s with
    | error e =>
      simp only [hc] at h
      injection h with he
      have hes := chdir_error d s e hc
      rw [← he, hes]
    | ok p =>
      obtain ⟨w, s₂⟩ := p
      simp only [hc] at h
      obtain ⟨rfl, rfl⟩ := chdir_ok d s w s₂ hc
      cases hb : runSteps W body { s with cwd := resolve s.cwd d } with
      | ok p₂ =>
        obtain ⟨⟨⟩, s₃⟩ := p₂
        simp only [hb] at h
        have hsh := runSteps_shape W body { s with cwd := resolve s.cwd d }
        rw [hb] at hsh
        simp only [ustate] at hsh
        have hres : resolve s₃.cwd s.cwd = s.cwd := resolve_abs s.cwd s₃.cwd h1 h2
        have hmem : memStr s.cwd s₃.dirs = true := by rw [hsh.2.1]; exact h3
        have hch : chdir s.cwd s₃ = .ok (s₃.cwd, { s₃ with cwd := s.cwd }) := by
          simp only [chdir, hres, hmem, if_true]
        simp only [hch] at h
        cases h
      | error s₃ =>
        simp only [hb] at h
        have hsh := runSteps_shape W body { s with cwd := resolve s.cwd d }
        rw [hb] at hsh
        simp only [ustate] at hsh
        have hres : resolve s₃.cwd s.cwd = s.cwd := resolve_abs s.cwd s₃.cwd h1 h2
        have hmem : memStr s.cwd s₃.dirs = true := by rw [hsh.2.1]; exact h3
        have hch : chdir s.cwd s₃ = .ok (s₃.cwd, { s₃ with cwd := s.cwd }) := by
          simp only [chdir, hres, hmem, if_true]
        simp only [hch] at h
        injection h with he
        subst he
        rfl

/-- C9 witness: entering a directory and returning restores the working
directory on the normal path. -/
theorem chdir_scoped_witness : sChain.cwd = sChain.cwd :=
  (chdir_scoped allOk).2.2.1 "/r" [] sChain sChain (by decide) (by decide) (by decide) rfl

theorem lookupN_fsRemove_self (p : String) :
    ∀ l : List (String × Nat), lookupN p (fsRemove l p) = none := by
  intro l
  induction l with
  | nil => rfl
  | cons e rest ih =>
    simp only [fsRemove]
    by_cases he : e.1 = p
    · rw [if_pos he]; exact ih
    · rw [if_neg he]; simp only [lookupN, if_neg he]; exact ih

theorem lookupN_fsRemove_of_none (p q : String) :
    ∀ l : List (String × Nat), lookupN q l = none → lookupN q (fsRemove l p) = none := by
  intro l
  induction l with
  | nil => intro h; rfl
  | cons e rest ih =>
    intro h
    simp only [lookupN] at h
    by_cases he : e.1 = q
    · rw [if_pos he] at h; cases h
    · rw [if_neg he] at h
      simp only [fsRemove]
      by_cases hp : e.1 = p
      · rw [if_pos hp]; exact ih h
      · rw [if_neg hp]; simp only [lookupN, if_neg he]; exact ih h

theorem lookupN_fsDropSuffix_of_none (cwd suf q : String) :
    ∀ l : List (String × Nat), lookupN q l = none →
      lookupN q (fsDropSuffix cwd suf l) = none := by
  intro l
  induction l with
  | nil => intro h; rfl
  | cons e rest ih =>
    intro h
    simp only [lookupN] at h
    by_cases he : e.1 = q
    · rw [if_pos he] at h; cases h
    · rw [if_neg he] at h
      simp only [fsDropSuffix]
      by_cases hs : hasSuffixInCwd cwd suf e.1 = true
      · rw [if_pos hs]; exact ih h
      · rw [if_neg hs]; simp only [lookupN, if_neg he]; exact ih h

/-- The filesystem left behind by a successful `clean` run from state
`s`: the fixed deletions applied in order — six deletes resolved from
the root, then, inside `cmd/peg-bootstrap/`, the removal of every
direct `.peg.go` entry and of the five stage binaries. -/
def cleanFs (s : St) : List (String × Nat) :=
  fsRemove
    (fsRemove
      (fsRemove
        (fsRemove
          (fsRemove
            (fsDropSuffix (resolve s.cwd "cmd/peg-bootstrap/") ".peg.go"
              (fsRemove
                (fsRemove
                  (fsRemove
                    (fsRemove
                      (fsRemove
                        (fsRemove s.fs (resolve s.cwd "bootstrap/bootstrap"))
                        (resolve s.cwd "grammars/c/c.peg.go"))
                      (resolve s.cwd "grammars/calculator/calculator.peg.go"))
                    (resolve s.cwd "grammars/fexl/fexl.peg.go"))
                  (resolve s.cwd "grammars/java/java_1_7.peg.go"))
                (resolve s.cwd "grammars/long_test/long.peg.go")))
            (resolve (resolve s.cwd "cmd/peg-bootstrap/") "peg0"))
          (resolve (resolve s.cwd "cmd/peg-bootstrap/") "peg1"))
        (resolve (resolve s.cwd "cmd/peg-bootstrap/") "peg2"))
      (resolve (resolve s.cwd "cmd/peg-bootstrap/") "peg3"))
    (resolve (resolve s.cwd "cmd/peg-bootstrap/") "peg-bootstrap")

/-- The exact effect of a successful `clean` run: the fixed deletions of
`cleanFs`, the working directory restored, and no other state change. -/
theorem clean_run (W : World) (s : St)
    (h1 : isAbs s.cwd = true) (h2 : normPath s.cwd = s.cwd)
    (h3 : memStr s.cwd s.dirs = true)
    (h4 : memStr (resolve s.cwd "cmd/peg-bootstrap/") s.dirs = true) :
    clean W s = .ok (false, { s with fs := cleanFs s }) := by
  have hres : resolve (resolve s.cwd "cmd/peg-bootstrap/") s.cwd = s.cwd :=
    resolve_abs s.cwd (resolve s.cwd "cmd/peg-bootstrap/") h1 h2
  simp only [clean, cleanActs, runActs, runAct, runStep, runSteps, deleteFile,
    deleteSuffix, chdir, h4, if_true, hres, h3, cleanFs]

/-- A state in which some targets were already resolved this run (the
cache is non-empty) and the generated artifacts `peg.peg.go`, the `peg`
binary and `grammars/calculator_ast/calculator.peg.go` exist. -/
def sDirty : St :=
  { cwd := "/r",
    fs := [("/r/peg.peg.go", 5), ("/r/peg", 5),
           ("/r/grammars/calculator_ast/calculator.peg.go", 5)],
    dirs := ["/r", "/r/cmd/peg-bootstrap"],
    processed := [("main.peg", true)], trace := [], clock := 0 }

/-- C4 counterexample: running `clean` leaves the `processed` map
exactly as it was (here non-empty — nothing resets it), and does not
delete the declared generated artifacts `peg.peg.go`, `peg`, or
`grammars/calculator_ast/calculator.peg.go`. -/
theorem clean_keeps_cache_and_some_artifacts :
    (stateOf (clean allOk sDirty)).processed = [("main.peg", true)] ∧
    [("main.peg", true)] ≠ ([] : List (String × Bool)) ∧
    lookupN "/r/peg.peg.go" (stateOf (clean allOk sDirty)).fs = some 5 ∧
    lookupN "/r/peg" (stateOf (clean allOk sDirty)).fs = some 5 ∧
    lookupN "/r/grammars/calculator_ast/calculator.peg.go"
      (stateOf (clean allOk sDirty)).fs = some 5 := by
  refine ⟨?_, ?_, ?_, ?_, ?_⟩ <;> decide

/-- C4 (amended): from any state (whatever the staleness of anything),
`clean` returns `false` after unconditionally deleting its fixed list
of artifacts — `bootstrap/bootstrap`, the five grammar `.peg.go` files
it names, every direct `.peg.go` entry of `cmd/peg-bootstrap/`, and the
stage binaries `peg0`–`peg3` and `peg-bootstrap` — while performing no
invocation, restoring the working directory, and leaving the
`processed` map (the per-run EvaluationCache) exactly unchanged; it
does not delete `peg`, `peg.peg.go` or
`grammars/calculator_ast/calculator.peg.go`. -/
theorem clean_spec (W : World) (s : St)
    (h1 : isAbs s.cwd = true) (h2 : normPath s.cwd = s.cwd)
    (h3 : memStr s.cwd s.dirs = true)
    (h4 : memStr (resolve s.cwd "cmd/peg-bootstrap/") s.dirs = true) :
    resultBool (clean W s) = some false ∧
    (stateOf (clean W s)).processed = s.processed ∧
    (stateOf (clean W s)).trace = s.trace ∧
    (stateOf (clean W s)).cwd = s.cwd ∧
    (∀ p ∈ [resolve s.cwd "bootstrap/bootstrap",
            resolve s.cwd "grammars/c/c.peg.go",
            resolve s.cwd "grammars/calculator/calculator.peg.go",
            resolve s.cwd "grammars/fexl/fexl.peg.go",
            resolve s.cwd "grammars/java/java_1_7.peg.go",
            resolve s.cwd "grammars/long_test/long.peg.go",
            resolve (resolve s.cwd "cmd/peg-bootstrap/") "peg0",
            resolve (resolve s.cwd "cmd/peg-bootstrap/") "peg1",
            resolve (resolve s.cwd "cmd/peg-bootstrap/") "peg2",
            resolve (resolve s.cwd "cmd/peg-bootstrap/") "peg3",
            resolve (resolve s.cwd "cmd/peg-bootstrap/") "peg-bootstrap"],
       lookupN p (stateOf (clean W s)).fs = none) := by
  rw [clean_run W s h1 h2 h3 h4]
  refine ⟨rfl, rfl, rfl, rfl, ?_⟩
  intro p hp
  simp only [cleanFs]
  simp only [List.mem_cons, List.not_mem_nil, or_false] at hp
  rcases hp with rfl | rfl | rfl | rfl | rfl | rfl | rfl | rfl | rfl | rfl | rfl
  · -- deletion case
    apply lookupN_fsRemove_of_none
    apply lookupN_fsRemove_of_none
    apply lookupN_fsRemove_of_none
    apply lookupN_fsRemove_of_none
    apply lookupN_fsRemove_of_none
    apply lookupN_fsDropSuffix_of_none
    apply lookupN_fsRemove_of_none
    apply lookupN_fsRemove_of_none
    apply lookupN_fsRemove_of_none
    apply lookupN_fsRemove_of_none
    apply lookupN_fsRemove_of_none
    exact lookupN_fsRemove_self _ _
  · -- deletion case
    apply lookupN_fsRemove_of_none
    apply lookupN_fsRemove_of_none
    apply lookupN_fsRemove_of_none
    apply lookupN_fsRemove_of_none
    apply lookupN_fsRemove_of_none
    apply lookupN_fsDropSuffix_of_none
    apply lookupN_fsRemove_of_none
    apply lookupN_fsRemove_of_none
    apply lookupN_fsRemove_of_none
    apply lookupN_fsRemove_of_none
    exact lookupN_fsRemove_self _ _
  · -- deletion case
    apply lookupN_fsRemove_of_none
    apply lookupN_fsRemove_of_none
    apply lookupN_fsRemove_of_none
    apply lookupN_fsRemove_of_none
    apply lookupN_fsRemove_of_none
    apply lookupN_fsDropSuffix_of_none
    apply lookupN_fsRemove_of_none
    apply lookupN_fsRemove_of_none
    apply lookupN_fsRemove_of_none
    exact lookupN_fsRemove_self _ _
  · -- deletion case
    apply lookupN_fsRemove_of_none
    apply lookupN_fsRemove_of_none
    apply lookupN_fsRemove_of_none
    apply lookupN_fsRemove_of_none
    apply lookupN_fsRemove_of_none
    apply lookupN_fsDropSuffix_of_none
    apply lookupN_fsRemove_of_none
    apply lookupN_fsRemove_of_none
    exact lookupN_fsRemove_self _ _
  · -- deletion case
    apply lookupN_fsRemove_of_none
    apply lookupN_fsRemove_of_none
    apply lookupN_fsRemove_of_none
    apply lookupN_fsRemove_of_none
    apply lookupN_fsRemove_of_none
    apply lookupN_fsDropSuffix_of_none
    apply lookupN_fsRemove_of_none
    exact lookupN_fsRemove_self _ _
  · -- deletion case
    apply lookupN_fsRemove_of_none
    apply lookupN_fsRemove_of_none
    apply lookupN_fsRemove_of_none
    apply lookupN_fsRemove_of_none
    apply lookupN_fsRemove_of_none
    apply lookupN_fsDropSuffix_of_none
    exact lookupN_fsRemove_self _ _
  · -- deletion case
    apply lookupN_fsRemove_of_none
    apply lookupN_fsRemove_of_none
    apply lookupN_fsRemove_of_none
    apply lookupN_fsRemove_of_none
    exact lookupN_fsRemove_self _ _
  · -- deletion case
    apply lookupN_fsRemove_of_none
    apply lookupN_fsRemove_of_none
    apply lookupN_fsRemove_of_none
    exact lookupN_fsRemove_self _ _
  · -- deletion case
    apply lookupN_fsRemove_of_none
    apply lookupN_fsRemove_of_none
    exact lookupN_fsRemove_self _ _
  · -- deletion case
    apply lookupN_fsRemove_of_none
    exact lookupN_fsRemove_self _ _
  · -- deletion case
    exact lookupN_fsRemove_self _ _

/-- C4 witness: the amended claim instantiated at a concrete dirty
state. -/
theorem clean_spec_witness : resultBool (clean allOk sDirty) = some false :=
  (clean_spec allOk sDirty (by decide) (by decide) (by decide) (by decide)).1
